import Mathlib

/-!
Shallow embedding of the logical core of `src/app.py` (an in-memory expense
tracker built from five "agent" classes plus inline pandas store
manipulation), together with theorems checking the specification's claims.

Modelling conventions, applied throughout:

* pandas `float` amounts are modelled as exact rationals `ℚ`; the claims under
  check are all stated "under exact arithmetic".
* a raw cell that pandas would hold as `NaN` (a missing value) is modelled as
  `Option.none`; `DataFrame.dropna()` therefore keeps exactly the rows whose
  every field is `some`.
* `Series.astype(float)` on the amount column is modelled by tagging each raw
  amount with the outcome pandas parsing would have: `RawAmount.num q` is a
  value that coerces to the float (here: rational) `q` — possibly negative —
  while `RawAmount.text s` is a non-numeric value on which `astype(float)`
  raises `ValueError`.  The raised exception is modelled as
  `Except.error .invalidAmount` for the whole call, matching the fact that the
  Python exception aborts `clean` rather than dropping the single row.
* `pd.to_datetime` on the date column is modelled the same way:
  `RawDate.valid d` parses to the calendar date `d`, `RawDate.invalid s`
  raises, modelled as `Except.error .invalidDate` for the whole call.
  Column conversions happen in source order: the amount column is converted
  before the date column, so an amount error wins when both columns are bad.
* `dt.strftime "%Y-%m"` is modelled by `strftimeYM`, printing the zero-padded
  four-digit year and two-digit month (pandas timestamps lie in 1677–2262, so
  `%Y` is always four digits there; the printer left-pads with zeros exactly
  as `strftime` does).
-/

/-- A calendar date, as carried by a successfully parsed pandas timestamp. -/
structure Date where
  year : ℕ
  month : ℕ
  day : ℕ
deriving DecidableEq, Repr

/-- A raw date cell: either parseable by `pd.to_datetime` (to `d`) or text that
makes `pd.to_datetime` raise. -/
inductive RawDate where
  | valid (d : Date)
  | invalid (s : String)
deriving DecidableEq, Repr

/-- A raw amount cell: either numeric, coercing under `astype(float)` to the
rational `q` (which may be negative), or non-numeric text on which
`astype(float)` raises `ValueError`. -/
inductive RawAmount where
  | num (q : ℚ)
  | text (s : String)
deriving DecidableEq, Repr

/-- A row of the session `DataFrame` `st.session_state.data` before cleaning;
`none` fields are pandas `NaN` (missing) cells. -/
structure RawRecord where
  date : Option RawDate
  amount : Option RawAmount
  category : Option String
  description : Option String
deriving DecidableEq, Repr

/-- A raw row all of whose fields are present; this is what survives
`df.dropna()`. -/
structure PresentRecord where
  date : RawDate
  amount : RawAmount
  category : String
  description : String
deriving DecidableEq, Repr

/-- A fully cleaned row, as produced by `CleaningAgent.clean`: typed date and
amount plus the derived `month` column. -/
structure NormalizedRecord where
  date : Date
  amount : ℚ
  category : String
  description : String
  month : String
deriving DecidableEq, Repr

/-- The exceptions `CleaningAgent.clean` can raise: `ValueError` from
`astype(float)` (here `invalidAmount`) and a parse error from
`pd.to_datetime` (here `invalidDate`). -/
inductive CleanError where
  | invalidAmount
  | invalidDate
deriving DecidableEq, Repr

/-- A digit value 0–9 printed as its character; values ≥ 9 are clamped (they
never occur for genuine digits). -/
def digitChar (n : ℕ) : Char :=
  match n with
  | 0 => '0' | 1 => '1' | 2 => '2' | 3 => '3' | 4 => '4'
  | 5 => '5' | 6 => '6' | 7 => '7' | 8 => '8' | _ => '9'

/-- Decimal digit characters of a positive number, most significant first,
computed with explicit fuel (structural recursion, so terms evaluate by
`rfl`); returns `[]` once the value reaches `0`. -/
def natToCharsAux : ℕ → ℕ → List Char
  | 0, _ => []
  | _ + 1, 0 => []
  | fuel + 1, n + 1 =>
      natToCharsAux fuel ((n + 1) / 10) ++ [digitChar ((n + 1) % 10)]

/-- Decimal digit characters of `n`, most significant first; `0` prints as
`"0"`. -/
def natToChars (n : ℕ) : List Char :=
  if n = 0 then ['0'] else natToCharsAux n n

/-- Left-pad a character list with `'0'` up to width `w`, as `strftime` and
`%0Nd`-style formatting do. -/
def padZero (w : ℕ) (cs : List Char) : List Char :=
  List.replicate (w - cs.length) '0' ++ cs

/-- The string `date.dt.strftime("%Y-%m")` produces for one date: zero-padded
four-digit year, a hyphen, zero-padded two-digit month. -/
def strftimeYM (d : Date) : String :=
  String.mk (padZero 4 (natToChars d.year) ++ '-' :: padZero 2 (natToChars d.month))

/-- One row of `df.dropna()`: a raw record passes iff every field is present. -/
def presentOf (r : RawRecord) : Option PresentRecord :=
  match r.date, r.amount, r.category, r.description with
  | some d, some a, some c, some s => some ⟨d, a, c, s⟩
  | _, _, _, _ => none

/-- `df.dropna()` (line 40 of `src/app.py`): keep exactly the rows with no
missing field. -/
def dropna (df : List RawRecord) : List PresentRecord :=
  df.filterMap presentOf

/-- `astype(float)` on one amount cell (line 41): numeric cells coerce — the
sign is not inspected — and non-numeric cells raise `ValueError`. -/
def astypeFloat : RawAmount → Except CleanError ℚ
  | .num q => .ok q
  | .text _ => .error .invalidAmount

/-- `pd.to_datetime` on one date cell (line 42): parseable cells yield the
date, unparseable cells raise. -/
def toDatetime : RawDate → Except CleanError Date
  | .valid d => .ok d
  | .invalid _ => .error .invalidDate

/-- Convert a whole column, stopping at the first failing cell — a pandas
column conversion either converts every cell or raises. -/
def mapE (f : α → Except ε β) : List α → Except ε (List β)
  | [] => .ok []
  | a :: l =>
      match f a with
      | .error e => .error e
      | .ok b =>
          match mapE f l with
          | .error e => .error e
          | .ok bs => .ok (b :: bs)

/-- Rebuild the cleaned rows from the kept rows, the converted amount column
and the converted date column, deriving the `month` column (line 43). -/
def rebuildRows (kept : List PresentRecord) (amounts : List ℚ) (dates : List Date) :
    List NormalizedRecord :=
  List.zipWith (fun (pa : PresentRecord × ℚ) d =>
      { date := d, amount := pa.2, category := pa.1.category,
        description := pa.1.description, month := strftimeYM d })
    (kept.zip amounts) dates

/-- Clean the rows that survived `dropna`: convert the amount column, then the
date column, then derive `month`. -/
def cleanKept (kept : List PresentRecord) : Except CleanError (List NormalizedRecord) :=
  match mapE (fun r => astypeFloat r.amount) kept with
  | .error e => .error e
  | .ok amounts =>
      match mapE (fun r => toDatetime r.date) kept with
      | .error e => .error e
      | .ok dates => .ok (rebuildRows kept amounts dates)

/-- `CleaningAgent.clean` (lines 38–44 of `src/app.py`): drop rows with
missing fields, coerce the amount column to float, parse the date column, and
derive the `month` column.  A conversion failure anywhere raises, aborting the
whole call. -/
def clean (df : List RawRecord) : Except CleanError (List NormalizedRecord) :=
  cleanKept (dropna df)

/-- The category of a cleaned row. -/
def catOf (n : NormalizedRecord) : String := n.category

/-- The `month` column entry of a cleaned row. -/
def monthOf (n : NormalizedRecord) : String := n.month

/-- The amount of a cleaned row. -/
def amtOf (n : NormalizedRecord) : ℚ := n.amount

/-- The distinct values of a key column, in ascending order — pandas
`groupby` iterates the distinct keys sorted ascending. -/
def groupKeys (key : NormalizedRecord → String) (df : List NormalizedRecord) : List String :=
  ((df.map key).dedup).insertionSort (· ≤ ·)

/-- The grouped sum `df.groupby(key)["amount"].sum()` for one key value. -/
def fiberSum (key : NormalizedRecord → String) (df : List NormalizedRecord) (c : String) : ℚ :=
  ((df.filter fun n => key n = c).map amtOf).sum

/-- One grouped-sum table `df.groupby(key)["amount"].sum().reset_index()`:
a row `(key value, summed amount)` per distinct key, keys ascending. -/
def groupSum (key : NormalizedRecord → String) (df : List NormalizedRecord) :
    List (String × ℚ) :=
  (groupKeys key df).map fun c => (c, fiberSum key df c)

/-- `AnalysisAgent.analyze` (lines 46–51 of `src/app.py`): the total spend,
the per-category sums and the per-month sums. -/
def analyze (df : List NormalizedRecord) : ℚ × List (String × ℚ) × List (String × ℚ) :=
  ((df.map amtOf).sum, groupSum catOf df, groupSum monthOf df)

/-- An overspend alert, modelling the f-string
`f"⚠️ High spending in {c}: ₹{g['amount'].sum()}"` by the two interpolated
values it contains: the category name and that category's total. -/
structure Alert where
  category : String
  total : ℚ
deriving DecidableEq, Repr

/-- `DecisionAgent.detect_overspend` (lines 53–59 of `src/app.py`): group by
category and emit one alert for every group whose summed amount strictly
exceeds `limit`. -/
def detect_overspend (df : List NormalizedRecord) (limit : ℚ) : List Alert :=
  (groupKeys catOf df).filterMap fun c =>
    if limit < fiberSum catOf df c then some ⟨c, fiberSum catOf df c⟩ else none

/-- The Python default value of the `limit` parameter of `detect_overspend`. -/
def defaultLimit : ℚ := 3000

/-- `detect_overspend` as called with its default limit (line 196 of
`src/app.py`). -/
def detect_overspend_default (df : List NormalizedRecord) : List Alert :=
  detect_overspend df defaultLimit

/-- `RecommendationAgent.recommend` (lines 61–68 of `src/app.py`). -/
def recommend (total : ℚ) : String :=
  if 15000 < total then "High spending pattern. Reduce non-essential expenses."
  else if 8000 < total then "Moderate spending. Optimize discretionary costs."
  else "Excellent financial discipline. Good savings pattern."

/-- The error raised by a position-based store operation given an invalid
position (the spec's `OutOfRange`; pandas raises `KeyError` from `drop`). -/
inductive StoreError where
  | outOfRange
deriving DecidableEq, Repr

/-- The delete action of the Manage Data page (lines 150–153 of
`src/app.py`): `st.session_state.data.drop(row["index"]).reset_index(drop=True)`.
After `reset_index` the labels are exactly the positions `0, …, n-1`, so
`drop` removes the row at position `p` and the renumbering shifts later rows
down by one; a label not present makes pandas `drop` raise, modelled as
`OutOfRange`, and the store is left unchanged. -/
def removeAt (l : List RawRecord) (p : ℕ) : Except StoreError (List RawRecord) :=
  if p < l.length then .ok (l.eraseIdx p) else .error .outOfRange

/-- Whether a raw amount cell is numeric, i.e. survives `astype(float)`. -/
def isNumeric : RawAmount → Bool
  | .num _ => true
  | .text _ => false

/-- Whether a raw date cell is parseable by `pd.to_datetime`. -/
def isParseable : RawDate → Bool
  | .valid _ => true
  | .invalid _ => false

/-- The float a numeric raw amount coerces to (`0` on the non-numeric
constructor, which is never reached under an `isNumeric` hypothesis). -/
def amtValue : RawAmount → ℚ
  | .num q => q
  | .text _ => 0

/-- The date a parseable raw date parses to (a dummy on the unparseable
constructor, never reached under an `isParseable` hypothesis). -/
def dateValue : RawDate → Date
  | .valid d => d
  | .invalid _ => ⟨0, 0, 0⟩

theorem mapE_ok_of_forall {α β ε : Type} {f : α → Except ε β} {g : α → β} :
    ∀ {l : List α}, (∀ a ∈ l, f a = .ok (g a)) → mapE f l = .ok (l.map g)
  | [], _ => rfl
  | a :: l, h => by
      have ha := h a (by simp)
      have hl := mapE_ok_of_forall (f := f) (g := g) (l := l) fun x hx => h x (by simp [hx])
      simp [mapE, ha, hl]

theorem mapE_forall₂ {α β ε : Type} {f : α → Except ε β} :
    ∀ {l : List α} {out : List β}, mapE f l = .ok out →
      List.Forall₂ (fun a b => f a = .ok b) l out := by
  intro l
  induction l with
  | nil => intro out h; cases h; exact List.Forall₂.nil
  | cons a l ih =>
      intro out h
      cases ha : f a with
      | error e => rw [mapE, ha] at h; cases h
      | ok b =>
          cases hl : mapE f l with
          | error e => rw [mapE, ha, hl] at h; cases h
          | ok bs =>
              rw [mapE, ha, hl] at h
              cases h
              exact List.Forall₂.cons ha (ih hl)

theorem mapE_error {α β ε : Type} {f : α → Except ε β} {e : ε} :
    ∀ {l : List α}, (∃ a ∈ l, f a = .error e) →
      (∀ a ∈ l, f a = .error e ∨ ∃ b, f a = .ok b) → mapE f l = .error e := by
  intro l
  induction l with
  | nil => rintro ⟨a, ha, _⟩ _; cases ha
  | cons a l ih =>
      rintro ⟨x, hx, hfx⟩ hall
      rcases hall a (by simp) with ha | ⟨b, hb⟩
      · simp [mapE, ha]
      · have hxl : x ∈ l := by
          rcases List.mem_cons.mp hx with rfl | h
          · rw [hb] at hfx; cases hfx
          · exact h
        have := ih ⟨x, hxl, hfx⟩ fun y hy => hall y (by simp [hy])
        simp [mapE, hb, this]

theorem rebuildRows_map (kept : List PresentRecord) (f : PresentRecord → ℚ)
    (g : PresentRecord → Date) :
    rebuildRows kept (kept.map f) (kept.map g) = kept.map fun p =>
      { date := g p, amount := f p, category := p.category,
        description := p.description, month := strftimeYM (g p) } := by
  induction kept with
  | nil => rfl
  | cons p l ih => simp [rebuildRows] at ih ⊢; exact ih

theorem mem_zipWith {α β γ : Type} {f : α → β → γ} :
    ∀ {l₁ : List α} {l₂ : List β} {x : γ}, x ∈ List.zipWith f l₁ l₂ →
      ∃ a b, a ∈ l₁ ∧ b ∈ l₂ ∧ x = f a b := by
  intro l₁
  induction l₁ with
  | nil => intro l₂ x h; cases h
  | cons a l ih =>
      intro l₂ x h
      cases l₂ with
      | nil => cases h
      | cons b l₂ =>
          rcases List.mem_cons.mp h with rfl | h
          · exact ⟨a, b, by simp, by simp, rfl⟩
          · rcases ih h with ⟨a', b', ha, hb, rfl⟩
            exact ⟨a', b', by simp [ha], by simp [hb], rfl⟩

theorem cleanKept_ok {kept : List PresentRecord} {out : List NormalizedRecord}
    (h : cleanKept kept = .ok out) :
    ∃ amounts dates, mapE (fun r => astypeFloat r.amount) kept = .ok amounts ∧
      mapE (fun r => toDatetime r.date) kept = .ok dates ∧
      out = rebuildRows kept amounts dates := by
  cases hA : mapE (fun r => astypeFloat r.amount) kept with
  | error e => rw [cleanKept, hA] at h; cases h
  | ok amounts =>
      cases hD : mapE (fun r => toDatetime r.date) kept with
      | error e => rw [cleanKept, hA, hD] at h; cases h
      | ok dates =>
          rw [cleanKept, hA, hD] at h
          cases h
          exact ⟨amounts, dates, rfl, rfl, rfl⟩

theorem clean_month_eq {df : List RawRecord} {out : List NormalizedRecord}
    (h : clean df = .ok out) : ∀ n ∈ out, n.month = strftimeYM n.date := by
  rcases cleanKept_ok h with ⟨amounts, dates, _, _, rfl⟩
  intro n hn
  rcases mem_zipWith hn with ⟨pa, d, _, _, rfl⟩
  rfl

theorem mem_groupKeys {key : NormalizedRecord → String} {df : List NormalizedRecord}
    {c : String} : c ∈ groupKeys key df ↔ c ∈ df.map key := by
  unfold groupKeys
  rw [(List.perm_insertionSort _ _).mem_iff]
  exact List.mem_dedup

theorem nodup_groupKeys (key : NormalizedRecord → String) (df : List NormalizedRecord) :
    (groupKeys key df).Nodup :=
  ((List.perm_insertionSort _ _).nodup_iff).mpr (List.nodup_dedup _)

theorem detect_overspend_categories (df : List NormalizedRecord) (limit : ℚ) :
    (detect_overspend df limit).map Alert.category =
      (groupKeys catOf df).filter fun c => decide (limit < fiberSum catOf df c) := by
  unfold detect_overspend
  induction groupKeys catOf df with
  | nil => rfl
  | cons c ks ih =>
      by_cases h : limit < fiberSum catOf df c <;>
        simp [List.filterMap_cons, List.filter_cons, h, ih]

/-- C5: applying `analyze` to the empty cleaned record set returns total `0`,
an empty per-category table and an empty per-month table. -/
theorem analyze_empty : analyze [] = (0, [], []) := rfl

/-- C3: `recommend` returns the high-spending advisory iff `total > 15000`,
the moderate advisory iff `8000 < total ≤ 15000`, and the favorable advisory
iff `total ≤ 8000`; in particular `8000` is favorable, `8000.01` moderate,
`15000` moderate and `15000.01` high. -/
theorem recommend_thresholds (t : ℚ) :
    (recommend t = "High spending pattern. Reduce non-essential expenses." ↔ 15000 < t)
    ∧ (recommend t = "Moderate spending. Optimize discretionary costs." ↔
        8000 < t ∧ t ≤ 15000)
    ∧ (recommend t = "Excellent financial discipline. Good savings pattern." ↔ t ≤ 8000)
    ∧ recommend 8000 = "Excellent financial discipline. Good savings pattern."
    ∧ recommend (800001 / 100) = "Moderate spending. Optimize discretionary costs."
    ∧ recommend 15000 = "Moderate spending. Optimize discretionary costs."
    ∧ recommend (1500001 / 100) = "High spending pattern. Reduce non-essential expenses." := by
  refine ⟨?_, ?_, ?_, ?_, ?_, ?_, ?_⟩
  · unfold recommend; split_ifs with h1 h2 <;> simp_all
  · unfold recommend; split_ifs with h1 h2 <;> simp_all
  · unfold recommend; split_ifs with h1 h2 <;> simp_all
    linarith
  · unfold recommend; norm_num
  · unfold recommend; norm_num
  · unfold recommend; norm_num
  · unfold recommend; norm_num

/-- C2: for every cleaned record set and every limit, `detect_overspend`
emits exactly one alert — carrying the category name and that category's
total — for each category occurring in the data whose summed amount strictly
exceeds the limit, and no alert for a category whose sum is at or below the
limit; the `limit` parameter defaults to `3000`. -/
theorem detect_overspend_correct (df : List NormalizedRecord) (limit : ℚ) :
    (∀ a : Alert, a ∈ detect_overspend df limit ↔
      a.category ∈ df.map catOf ∧ a.total = fiberSum catOf df a.category ∧
        limit < fiberSum catOf df a.category)
    ∧ ((detect_overspend df limit).map Alert.category).Nodup
    ∧ detect_overspend_default df = detect_overspend df 3000 := by
  refine ⟨?_, ?_, rfl⟩
  · intro a
    constructor
    · intro ha
      rcases List.mem_filterMap.mp ha with ⟨c, hc, hfc⟩
      by_cases h : limit < fiberSum catOf df c
      · rw [if_pos h] at hfc
        cases hfc
        exact ⟨mem_groupKeys.mp hc, rfl, h⟩
      · rw [if_neg h] at hfc; cases hfc
    · rintro ⟨hmem, htot, hlt⟩
      refine List.mem_filterMap.mpr ⟨a.category, mem_groupKeys.mpr hmem, ?_⟩
      rw [if_pos hlt]
      cases a
      simp only at htot
      rw [htot]
  · rw [detect_overspend_categories]
    exact (nodup_groupKeys catOf df).filter _

theorem astypeFloat_eq_of_isNumeric {a : RawAmount} (h : isNumeric a = true) :
    astypeFloat a = .ok (amtValue a) := by
  cases a with
  | num q => rfl
  | text s => cases h

theorem astypeFloat_eq_error {a : RawAmount} (h : isNumeric a = false) :
    astypeFloat a = .error .invalidAmount := by
  cases a with
  | num q => cases h
  | text s => rfl

theorem toDatetime_eq_of_isParseable {d : RawDate} (h : isParseable d = true) :
    toDatetime d = .ok (dateValue d) := by
  cases d with
  | valid d => rfl
  | invalid s => cases h

theorem toDatetime_eq_error {d : RawDate} (h : isParseable d = false) :
    toDatetime d = .error .invalidDate := by
  cases d with
  | valid d => cases h
  | invalid s => rfl

/-- A raw record with all fields present, a parseable date and a numeric
(negative) amount. -/
def rawNeg : RawRecord :=
  ⟨some (.valid ⟨2024, 1, 5⟩), some (.num (-5)), some "Food", some "refund"⟩

/-- A raw record with all fields present and no parsing problem. -/
def rawGood : RawRecord :=
  ⟨some (.valid ⟨2024, 1, 5⟩), some (.num 100), some "Food", some "lunch"⟩

/-- A raw record whose amount cell is non-numeric text. -/
def rawBadAmt : RawRecord :=
  ⟨some (.valid ⟨2024, 1, 5⟩), some (.text "oops"), some "Food", some "typo"⟩

/-- A raw record whose date cell is unparseable text. -/
def rawBadDate : RawRecord :=
  ⟨some (.invalid "someday"), some (.num 10), some "Food", some "typo"⟩

/-- A raw record whose description cell is missing (pandas `NaN`). -/
def rawMissingDesc : RawRecord :=
  ⟨some (.valid ⟨2024, 2, 1⟩), some (.num 200), some "Travel", none⟩

/-- The cleaned row `clean` produces from `rawNeg`: the negative amount is
kept. -/
def cleanedNeg : NormalizedRecord := ⟨⟨2024, 1, 5⟩, -5, "Food", "refund", "2024-01"⟩

/-- C1 is false on the code: `clean` keeps a record whose amount is negative
(first two conjuncts: on the one-record set `[rawNeg]` it returns that record,
amount `-5`, instead of dropping it), and a non-numeric amount or unparseable
date is not dropped silently but aborts the whole call with an error, so the
remaining record `rawGood` is not returned (last two conjuncts). -/
theorem clean_not_silent_counterexample :
    clean [rawNeg] = .ok [cleanedNeg] ∧ cleanedNeg.amount < 0 ∧
    clean [rawGood, rawBadAmt] = .error .invalidAmount ∧
    clean [rawGood, rawBadDate] = .error .invalidDate :=
  ⟨rfl, by decide, rfl, rfl⟩

/-- C1 (amended): `clean` silently drops exactly the records with a missing
field; on the remainder, if every amount is numeric and every date parseable
it succeeds, returning one cleaned record per kept record with the coerced
amount (negative amounts included) and parsed date; if some kept record has a
non-numeric amount the whole call fails with `invalidAmount`; and if amounts
are all numeric but some kept record has an unparseable date the whole call
fails with `invalidDate`.  No record with a malformed (as opposed to missing)
field is ever dropped silently. -/
theorem clean_error_policy (df : List RawRecord) :
    ((∀ r ∈ dropna df, isNumeric r.amount = true) →
      (∀ r ∈ dropna df, isParseable r.date = true) →
      ∃ out, clean df = .ok out ∧
        List.Forall₂
          (fun (p : PresentRecord) (n : NormalizedRecord) =>
            astypeFloat p.amount = .ok n.amount ∧ toDatetime p.date = .ok n.date ∧
              n.category = p.category ∧ n.description = p.description)
          (dropna df) out)
    ∧ ((∃ r ∈ dropna df, isNumeric r.amount = false) →
        clean df = .error .invalidAmount)
    ∧ ((∀ r ∈ dropna df, isNumeric r.amount = true) →
        (∃ r ∈ dropna df, isParseable r.date = false) →
        clean df = .error .invalidDate) := by
  refine ⟨?_, ?_, ?_⟩
  · intro hA hD
    have hA' : mapE (fun r => astypeFloat r.amount) (dropna df) =
        .ok ((dropna df).map fun p => amtValue p.amount) :=
      mapE_ok_of_forall fun p hp => astypeFloat_eq_of_isNumeric (hA p hp)
    have hD' : mapE (fun r => toDatetime r.date) (dropna df) =
        .ok ((dropna df).map fun p => dateValue p.date) :=
      mapE_ok_of_forall fun p hp => toDatetime_eq_of_isParseable (hD p hp)
    refine ⟨_, by rw [clean, cleanKept, hA', hD'], ?_⟩
    rw [rebuildRows_map (dropna df) (fun p => amtValue p.amount) fun p => dateValue p.date]
    rw [List.forall₂_map_right_iff]
    refine List.forall₂_same.mpr fun p hp => ?_
    exact ⟨astypeFloat_eq_of_isNumeric (hA p hp),
      toDatetime_eq_of_isParseable (hD p hp), rfl, rfl⟩
  · rintro ⟨r, hr, hnum⟩
    have hA' : mapE (fun r => astypeFloat r.amount) (dropna df) = .error .invalidAmount := by
      refine mapE_error ⟨r, hr, astypeFloat_eq_error hnum⟩ fun a _ => ?_
      cases ha : a.amount with
      | num q => exact Or.inr ⟨q, rfl⟩
      | text s => exact Or.inl rfl
    rw [clean, cleanKept, hA']
  · intro hA
    rintro ⟨r, hr, hdate⟩
    have hA' : mapE (fun r => astypeFloat r.amount) (dropna df) =
        .ok ((dropna df).map fun p => amtValue p.amount) :=
      mapE_ok_of_forall fun p hp => astypeFloat_eq_of_isNumeric (hA p hp)
    have hD' : mapE (fun r => toDatetime r.date) (dropna df) = .error .invalidDate := by
      refine mapE_error ⟨r, hr, toDatetime_eq_error hdate⟩ fun a _ => ?_
      cases ha : a.date with
      | valid d => exact Or.inr ⟨d, rfl⟩
      | invalid s => exact Or.inl rfl
    rw [clean, cleanKept, hA', hD']

/-- Witness for the amended C1 theorem: its three cases applied at concrete
inputs, every hypothesis discharged by computation. -/
theorem clean_error_policy_witness :
    clean [rawGood, rawBadAmt] = .error .invalidAmount ∧
    clean [rawGood, rawBadDate] = .error .invalidDate ∧
    ∃ out, clean [rawGood, rawMissingDesc] = .ok out ∧
      List.Forall₂
        (fun (p : PresentRecord) (n : NormalizedRecord) =>
          astypeFloat p.amount = .ok n.amount ∧ toDatetime p.date = .ok n.date ∧
            n.category = p.category ∧ n.description = p.description)
        (dropna [rawGood, rawMissingDesc]) out :=
  ⟨(clean_error_policy [rawGood, rawBadAmt]).2.1 (by decide),
   (clean_error_policy [rawGood, rawBadDate]).2.2 (by decide) (by decide),
   (clean_error_policy [rawGood, rawMissingDesc]).1 (by decide) (by decide)⟩

theorem natToCharsAux_length_le :
    ∀ (fuel n k : ℕ), n ≤ fuel → n < 10 ^ k → (natToCharsAux fuel n).length ≤ k := by
  intro fuel
  induction fuel with
  | zero => intro n k _ _; simp [natToCharsAux]
  | succ fuel ih =>
      intro n k hn hk
      cases n with
      | zero => simp [natToCharsAux]
      | succ m =>
          obtain ⟨k', rfl⟩ : ∃ k', k = k' + 1 := by
            refine ⟨k - 1, ?_⟩
            rcases Nat.eq_zero_or_pos k with h0 | h0
            · subst h0; simp at hk
            · omega
          have h1 : (m + 1) / 10 ≤ fuel := by
            have := Nat.div_lt_self (Nat.succ_pos m) (by norm_num : (1:ℕ) < 10)
            omega
          have h2 : (m + 1) / 10 < 10 ^ k' := by
            rw [Nat.div_lt_iff_lt_mul (by norm_num : (0:ℕ) < 10)]
            calc m + 1 < 10 ^ (k' + 1) := hk
            _ = 10 ^ k' * 10 := by ring
          have := ih ((m + 1) / 10) k' h1 h2
          simp only [natToCharsAux, List.length_append, List.length_cons,
            List.length_nil]
          omega

theorem natToChars_length_le {n k : ℕ} (h : n < 10 ^ k) (hk : 0 < k) :
    (natToChars n).length ≤ k := by
  unfold natToChars
  split
  · simpa using hk
  · exact natToCharsAux_length_le n n k le_rfl h

theorem padZero_length {w : ℕ} {cs : List Char} (h : cs.length ≤ w) :
    (padZero w cs).length = w := by
  simp only [padZero, List.length_append, List.length_replicate]
  omega

/-- C9: every record kept by `clean` has its `month` column equal to the
zero-padded four-digit year of its date, a hyphen, then the zero-padded
two-digit month of its date (format `YYYY-MM`); the padded year field is
exactly four characters whenever the year is below `10000`, and the padded
month field exactly two whenever the month is below `100` (always the case
for dates pandas can represent). -/
theorem clean_period_format (df : List RawRecord) (out : List NormalizedRecord)
    (n : NormalizedRecord) (h : clean df = .ok out) (hn : n ∈ out) :
    n.month = String.mk
        (padZero 4 (natToChars n.date.year) ++ '-' :: padZero 2 (natToChars n.date.month))
    ∧ (n.date.year < 10000 → (padZero 4 (natToChars n.date.year)).length = 4)
    ∧ (n.date.month < 100 → (padZero 2 (natToChars n.date.month)).length = 2) := by
  refine ⟨clean_month_eq h n hn, fun hy => ?_, fun hm => ?_⟩
  · refine padZero_length (natToChars_length_le ?_ (by norm_num))
    norm_num
    exact hy
  · refine padZero_length (natToChars_length_le ?_ (by norm_num))
    norm_num
    exact hm

/-- The cleaned row `clean` produces from `rawGood`. -/
def cleanedGood : NormalizedRecord := ⟨⟨2024, 1, 5⟩, 100, "Food", "lunch", "2024-01"⟩

/-- Witness for C9 at a concrete input. -/
theorem clean_period_format_witness :
    cleanedGood.month = String.mk
        (padZero 4 (natToChars cleanedGood.date.year) ++
          '-' :: padZero 2 (natToChars cleanedGood.date.month))
    ∧ (cleanedGood.date.year < 10000 →
        (padZero 4 (natToChars cleanedGood.date.year)).length = 4)
    ∧ (cleanedGood.date.month < 100 →
        (padZero 2 (natToChars cleanedGood.date.month)).length = 2) :=
  clean_period_format [rawGood] [cleanedGood] cleanedGood rfl (by decide)

/-- C10: a record any of whose fields is missing — the description included —
is silently excluded by `clean`: cleaning a record set containing such a
record gives exactly the cleaning of the record set without it, so the record
reaches none of the downstream totals, alerts or recommendations. -/
theorem clean_drops_missing_field (pre post : List RawRecord) (r : RawRecord)
    (h : r.date = none ∨ r.amount = none ∨ r.category = none ∨ r.description = none) :
    clean (pre ++ r :: post) = clean (pre ++ post) := by
  have hp : presentOf r = none := by
    rcases r with ⟨d, a, c, s⟩
    rcases d with _ | d <;> rcases a with _ | a <;> rcases c with _ | c <;>
      rcases s with _ | s <;> simp_all [presentOf]
  rw [clean, clean, dropna, dropna, List.filterMap_append, List.filterMap_append,
    List.filterMap_cons_none hp]

/-- Witness for C10: a record with a missing description is dropped. -/
theorem clean_drops_missing_field_witness :
    clean [rawGood, rawMissingDesc] = clean [rawGood] :=
  clean_drops_missing_field [rawGood] [] rawMissingDesc (by decide)

/-- Feed a cleaned record back into the session store as a raw record (every
field present, amount numeric, date parseable) — the shape a cleaned
`DataFrame` has when given to `clean` again. -/
def toRaw (n : NormalizedRecord) : RawRecord :=
  ⟨some (.valid n.date), some (.num n.amount), some n.category, some n.description⟩

/-- The present-row view of a re-fed cleaned record. -/
def reinjected (n : NormalizedRecord) : PresentRecord :=
  ⟨.valid n.date, .num n.amount, n.category, n.description⟩

theorem dropna_map_toRaw (out : List NormalizedRecord) :
    dropna (out.map toRaw) = out.map reinjected := by
  induction out with
  | nil => rfl
  | cons n l ih =>
      have hp : presentOf (toRaw n) = some (reinjected n) := rfl
      simp only [dropna, List.map_cons] at ih ⊢
      rw [List.filterMap_cons_some hp, ih]

/-- C6: `clean` is idempotent — whenever `clean` accepts a record set and
produces `out`, feeding `out` back through `clean` (as the raw rows it forms
in the store) yields exactly `out` again. -/
theorem clean_idempotent (df : List RawRecord) (out : List NormalizedRecord)
    (h : clean df = .ok out) : clean (out.map toRaw) = .ok out := by
  have hmonth := clean_month_eq h
  have hA : mapE (fun r => astypeFloat r.amount) (out.map reinjected) =
      .ok ((out.map reinjected).map fun p => amtValue p.amount) :=
    mapE_ok_of_forall fun p hp => by
      rcases List.mem_map.mp hp with ⟨n, _, rfl⟩; rfl
  have hD : mapE (fun r => toDatetime r.date) (out.map reinjected) =
      .ok ((out.map reinjected).map fun p => dateValue p.date) :=
    mapE_ok_of_forall fun p hp => by
      rcases List.mem_map.mp hp with ⟨n, _, rfl⟩; rfl
  have hck : cleanKept (out.map reinjected) =
      .ok (rebuildRows (out.map reinjected)
        ((out.map reinjected).map fun p => amtValue p.amount)
        ((out.map reinjected).map fun p => dateValue p.date)) := by
    rw [cleanKept, hA, hD]
  rw [clean, dropna_map_toRaw, hck,
    rebuildRows_map (out.map reinjected) (fun p => amtValue p.amount)
      fun p => dateValue p.date]
  congr 1
  rw [List.map_map]
  have hpt : ∀ n ∈ out,
      ({ date := dateValue (reinjected n).date, amount := amtValue (reinjected n).amount,
         category := (reinjected n).category, description := (reinjected n).description,
         month := strftimeYM (dateValue (reinjected n).date) } : NormalizedRecord) = n := by
    intro n hn
    have hm := hmonth n hn
    cases n
    simp_all [reinjected, dateValue, amtValue]
  calc out.map _ = out.map id := List.map_congr_left hpt
  _ = out := List.map_id out

/-- Witness for C6: re-cleaning the output of a successful clean is the
identity on a concrete record set. -/
theorem clean_idempotent_witness :
    clean ([cleanedGood].map toRaw) = .ok [cleanedGood] :=
  clean_idempotent [rawGood] [cleanedGood] rfl

theorem fiberSum_cons (key : NormalizedRecord → String) (a : NormalizedRecord)
    (df : List NormalizedRecord) (c : String) :
    fiberSum key (a :: df) c = (if key a = c then amtOf a else 0) + fiberSum key df c := by
  unfold fiberSum
  by_cases h : key a = c <;> simp [List.filter_cons, h]

theorem sum_map_ite_zero {x : ℚ} {c₀ : String} :
    ∀ {K : List String}, c₀ ∉ K → (K.map fun c => if c₀ = c then x else 0).sum = 0 := by
  intro K
  induction K with
  | nil => intro; rfl
  | cons c K ih =>
      intro h
      have hc : c₀ ≠ c := fun hh => h (by simp [hh])
      simp only [List.map_cons, List.sum_cons, if_neg hc, zero_add]
      exact ih fun hh => h (by simp [hh])

theorem sum_map_ite_single {x : ℚ} {c₀ : String} :
    ∀ {K : List String}, K.Nodup → c₀ ∈ K →
      (K.map fun c => if c₀ = c then x else 0).sum = x := by
  intro K
  induction K with
  | nil => intro _ h; cases h
  | cons c K ih =>
      intro hnd hmem
      rcases List.mem_cons.mp hmem with rfl | hmem'
      · simp only [List.map_cons, List.sum_cons, eq_self_iff_true, if_true]
        rw [sum_map_ite_zero (List.nodup_cons.mp hnd).1, add_zero]
      · have hc : c₀ ≠ c := fun hh => (List.nodup_cons.mp hnd).1 (hh ▸ hmem')
        simp only [List.map_cons, List.sum_cons, if_neg hc, zero_add]
        exact ih (List.nodup_cons.mp hnd).2 hmem'

theorem sum_map_add_pointwise (f g : String → ℚ) :
    ∀ K : List String, (K.map fun c => f c + g c).sum = (K.map f).sum + (K.map g).sum := by
  intro K
  induction K with
  | nil => simp
  | cons c K ih => simp only [List.map_cons, List.sum_cons, ih]; ring

theorem sum_dedup_fiberSum (key : NormalizedRecord → String) :
    ∀ df : List NormalizedRecord,
      (((df.map key).dedup).map fun c => fiberSum key df c).sum = (df.map amtOf).sum := by
  intro df
  induction df with
  | nil => rfl
  | cons a df ih =>
      by_cases hmem : key a ∈ df.map key
      · rw [List.map_cons, List.dedup_cons_of_mem hmem]
        have hcg : (((df.map key).dedup).map fun c => fiberSum key (a :: df) c)
            = ((df.map key).dedup).map fun c =>
                (if key a = c then amtOf a else 0) + fiberSum key df c :=
          List.map_congr_left fun c _ => fiberSum_cons key a df c
        rw [hcg, sum_map_add_pointwise,
          sum_map_ite_single (List.nodup_dedup _) (List.mem_dedup.mpr hmem), ih,
          List.map_cons, List.sum_cons]
      · rw [List.map_cons, List.dedup_cons_of_not_mem hmem, List.map_cons, List.sum_cons]
        have h0 : fiberSum key df (key a) = 0 := by
          unfold fiberSum
          rw [List.filter_eq_nil_iff.mpr fun n hn => by
            simp only [decide_eq_true_eq]
            exact fun h => hmem (h ▸ List.mem_map_of_mem key hn)]
          rfl
        have h1 : fiberSum key (a :: df) (key a) = amtOf a := by
          rw [fiberSum_cons, if_pos rfl, h0, add_zero]
        have h2 : (((df.map key).dedup).map fun c => fiberSum key (a :: df) c)
            = ((df.map key).dedup).map fun c => fiberSum key df c :=
          List.map_congr_left fun c hc => by
            have hne : key a ≠ c := fun hh =>
              hmem (by rw [hh]; exact List.mem_dedup.mp hc)
            rw [fiberSum_cons, if_neg hne, zero_add]
        rw [h1, h2, ih, List.map_cons, List.sum_cons]

theorem groupSum_snd_sum (key : NormalizedRecord → String) (df : List NormalizedRecord) :
    ((groupSum key df).map Prod.snd).sum = (df.map amtOf).sum := by
  have hmm : (groupSum key df).map Prod.snd
      = (groupKeys key df).map fun c => fiberSum key df c := by
    unfold groupSum
    rw [List.map_map]
    rfl
  rw [hmm]
  exact (((List.perm_insertionSort _ _).map _).sum_eq).trans (sum_dedup_fiberSum key df)

/-- C4: for every non-empty cleaned record set, the total returned by
`analyze` equals the sum of the per-category subtotal amounts and also the
sum of the per-month subtotal amounts, under exact arithmetic. -/
theorem analyze_consistency (df : List NormalizedRecord) (_hne : df ≠ []) :
    (analyze df).1 = (((analyze df).2.1).map Prod.snd).sum ∧
    (analyze df).1 = (((analyze df).2.2).map Prod.snd).sum :=
  ⟨(groupSum_snd_sum catOf df).symm, (groupSum_snd_sum monthOf df).symm⟩

/-- A second cleaned row used in concrete evaluations. -/
def cleanedSnack : NormalizedRecord := ⟨⟨2024, 1, 20⟩, 50, "Food", "snack", "2024-01"⟩

/-- A third cleaned row, in a different category and month. -/
def cleanedTravel : NormalizedRecord := ⟨⟨2024, 2, 1⟩, 200, "Travel", "", "2024-02"⟩

/-- Witness for C4 on a concrete non-empty record set. -/
theorem analyze_consistency_witness :
    (analyze [cleanedGood, cleanedSnack, cleanedTravel]).1 =
      (((analyze [cleanedGood, cleanedSnack, cleanedTravel]).2.1).map Prod.snd).sum ∧
    (analyze [cleanedGood, cleanedSnack, cleanedTravel]).1 =
      (((analyze [cleanedGood, cleanedSnack, cleanedTravel]).2.2).map Prod.snd).sum :=
  analyze_consistency [cleanedGood, cleanedSnack, cleanedTravel] (by decide)

/-- C8: for every store and valid position, `removeAt` removes exactly the
record at that position — the result is the records before it followed by the
records after it, every earlier position unchanged and every later record
shifted down by one — and for every invalid position (any position on an
empty store included) it fails with `OutOfRange`, returning no new store, so
the store is unchanged. -/
theorem removeAt_spec (l : List RawRecord) (p : ℕ) :
    (p < l.length →
      removeAt l p = .ok (l.take p ++ l.drop (p + 1)) ∧
      ∀ l2, removeAt l p = .ok l2 →
        l2.length = l.length - 1 ∧
        (∀ i, i < p → l2[i]? = l[i]?) ∧
        (∀ i, p ≤ i → l2[i]? = l[i + 1]?))
    ∧ (l.length ≤ p → removeAt l p = .error .outOfRange) := by
  constructor
  · intro hp
    constructor
    · rw [removeAt, if_pos hp, List.eraseIdx_eq_take_drop_succ]
    · intro l2 h2
      rw [removeAt, if_pos hp] at h2
      cases h2
      refine ⟨List.length_eraseIdx_of_lt hp, ?_, ?_⟩
      · intro i hi
        exact List.getElem?_eraseIdx_of_lt l p i hi
      · intro i hi
        exact List.getElem?_eraseIdx_of_ge l p i hi
  · intro hp
    rw [removeAt, if_neg (by omega)]

/-- Witness for C8: a concrete deletion at position `0` of a two-record
store, and the failing deletion on the empty store. -/
theorem removeAt_spec_witness :
    removeAt [rawGood, rawNeg] 0 = .ok [rawNeg] ∧
    removeAt ([] : List RawRecord) 0 = .error .outOfRange :=
  ⟨((removeAt_spec [rawGood, rawNeg] 0).1 (by decide)).1,
   (removeAt_spec [] 0).2 (by decide)⟩

/-!
CSV export/import (claim C7).  Modelled from the spec: the pandas calls
`st.session_state.data.to_csv(index=False)` (export, lines 184–186 of
`src/app.py`) and `pd.read_csv` plus `concat` (import, lines 123–126) are
library code outside `src/`, so the tabular text format is modelled from
section 6 of the spec: comma-separated values with columns
`date, amount, category, description` and a required header row.  The text is
represented as its list of lines, each line a list of characters; dates print
as `YYYY-MM-DD`, amounts as non-negative decimals with two fractional digits
(stored as a count of cents).  Valid rows (see `validRow`) have
comma/newline-free category and description text, which the unquoted
comma-separated format requires.
-/

/-- Split a character list at every occurrence of `sep` (the separator itself
is dropped); splitting the empty text gives one empty field. -/
def splitOnChar (sep : Char) : List Char → List (List Char)
  | [] => [[]]
  | x :: xs =>
      match splitOnChar sep xs with
      | [] => if x = sep then [[], []] else [[x]]
      | p :: ps => if x = sep then [] :: p :: ps else (x :: p) :: ps

theorem splitOnChar_ne_nil (sep : Char) : ∀ l, splitOnChar sep l ≠ [] := by
  intro l
  induction l with
  | nil => simp [splitOnChar]
  | cons x xs ih =>
      cases h : splitOnChar sep xs with
      | nil => exact absurd h ih
      | cons p ps =>
          simp only [splitOnChar, h]
          split <;> simp

theorem splitOnChar_of_not_mem {sep : Char} :
    ∀ {l : List Char}, sep ∉ l → splitOnChar sep l = [l] := by
  intro l
  induction l with
  | nil => intro _; rfl
  | cons x xs ih =>
      intro h
      have hx : ¬ x = sep := fun hh => h (by simp [hh])
      have hxs : sep ∉ xs := fun hh => h (by simp [hh])
      simp only [splitOnChar, ih hxs]
      simp [hx]

theorem splitOnChar_append {sep : Char} :
    ∀ {l₁ l₂ : List Char}, sep ∉ l₁ →
      splitOnChar sep (l₁ ++ sep :: l₂) = l₁ :: splitOnChar sep l₂ := by
  intro l₁
  induction l₁ with
  | nil =>
      intro l₂ _
      cases h : splitOnChar sep l₂ with
      | nil => exact absurd h (splitOnChar_ne_nil sep l₂)
      | cons p ps => simp [splitOnChar, h]
  | cons x l₁ ih =>
      intro l₂ h
      have hx : ¬ x = sep := fun hh => h (by simp [hh])
      have hl : sep ∉ l₁ := fun hh => h (by simp [hh])
      simp only [List.cons_append, splitOnChar, List.append_eq]
      rw [ih hl]
      simp [hx]

/-- The digit value of a character, when it is a decimal digit — one cell of
the numeric parsing `read_csv` performs. -/
def charToDigit (c : Char) : Option ℕ :=
  if '0' ≤ c ∧ c ≤ '9' then some (c.toNat - 48) else none

/-- Fold decimal digit characters (most significant first) into a number,
failing on the first non-digit. -/
def charsToNatAux (acc : ℕ) : List Char → Option ℕ
  | [] => some acc
  | c :: cs =>
      match charToDigit c with
      | some d => charsToNatAux (10 * acc + d) cs
      | none => none

/-- Parse a non-empty all-digit character list as a natural number. -/
def charsToNat (cs : List Char) : Option ℕ :=
  match cs with
  | [] => none
  | _ :: _ => charsToNatAux 0 cs

theorem charToDigit_digitChar {d : ℕ} (h : d < 10) :
    charToDigit (digitChar d) = some d := by
  interval_cases d <;> decide

theorem charsToNatAux_natToCharsAux :
    ∀ fuel n, n ≤ fuel → ∀ (acc : ℕ) (rest : List Char),
      charsToNatAux acc (natToCharsAux fuel n ++ rest) =
        charsToNatAux (acc * 10 ^ (natToCharsAux fuel n).length + n) rest := by
  intro fuel
  induction fuel with
  | zero =>
      intro n hn acc rest
      obtain rfl : n = 0 := by omega
      simp [natToCharsAux]
  | succ fuel ih =>
      intro n hn acc rest
      cases n with
      | zero => simp [natToCharsAux]
      | succ m =>
          have h1 : (m + 1) / 10 ≤ fuel := by
            have := Nat.div_lt_self (Nat.succ_pos m) (by norm_num : (1:ℕ) < 10)
            omega
          have hmod : (m + 1) % 10 < 10 := Nat.mod_lt _ (by norm_num)
          rw [natToCharsAux, List.append_assoc, List.singleton_append,
            ih ((m + 1) / 10) h1 acc (digitChar ((m + 1) % 10) :: rest)]
          simp only [charsToNatAux, charToDigit_digitChar hmod]
          congr 1
          rw [List.length_append, List.length_cons, List.length_nil]
          have hdm := Nat.div_add_mod (m + 1) 10
          set L := (natToCharsAux fuel ((m + 1) / 10)).length
          rw [pow_succ]
          ring_nf
          omega

theorem natToChars_ne_nil (n : ℕ) : natToChars n ≠ [] := by
  unfold natToChars
  split
  · simp
  · rename_i h
    obtain ⟨m, rfl⟩ : ∃ m, n = m + 1 := ⟨n - 1, by omega⟩
    simp [natToCharsAux]

theorem charsToNatAux_natToChars (n : ℕ) (rest : List Char) :
    charsToNatAux 0 (natToChars n ++ rest) = charsToNatAux n rest := by
  unfold natToChars
  split
  · rename_i h
    subst h
    show charsToNatAux 0 (['0'] ++ rest) = charsToNatAux 0 rest
    rfl
  · rw [charsToNatAux_natToCharsAux n n le_rfl 0 rest]
    simp

theorem charsToNatAux_zeros :
    ∀ (k : ℕ) (rest : List Char),
      charsToNatAux 0 (List.replicate k '0' ++ rest) = charsToNatAux 0 rest := by
  intro k
  induction k with
  | zero => intro rest; rfl
  | succ k ih =>
      intro rest
      show charsToNatAux 0 ('0' :: (List.replicate k '0' ++ rest)) = _
      have h0 : charToDigit '0' = some 0 := by decide
      simp only [charsToNatAux, h0]
      exact ih rest

theorem charsToNat_padZero_natToChars (w n : ℕ) :
    charsToNat (padZero w (natToChars n)) = some n := by
  have hne : padZero w (natToChars n) ≠ [] := by
    unfold padZero
    intro h
    rcases List.append_eq_nil.mp h with ⟨_, h2⟩
    exact natToChars_ne_nil n h2
  cases hps : padZero w (natToChars n) with
  | nil => exact absurd hps hne
  | cons c cs =>
      rw [charsToNat, ← hps]
      unfold padZero
      rw [charsToNatAux_zeros]
      have := charsToNatAux_natToChars n []
      rw [List.append_nil] at this
      rw [this]
      rfl

theorem charsToNat_natToChars (n : ℕ) : charsToNat (natToChars n) = some n := by
  have := charsToNat_padZero_natToChars 0 n
  simpa [padZero] using this

theorem digitChar_ne_sep (d : ℕ) :
    digitChar d ≠ ',' ∧ digitChar d ≠ '-' ∧ digitChar d ≠ '.' ∧ digitChar d ≠ '\n' := by
  rcases d with _|_|_|_|_|_|_|_|_|d
  all_goals first
  | decide
  | · show ('9' : Char) ≠ ',' ∧ ('9' : Char) ≠ '-' ∧ ('9' : Char) ≠ '.' ∧ ('9' : Char) ≠ '\n'
      decide

theorem mem_natToCharsAux_digit :
    ∀ (fuel n : ℕ) (c : Char), c ∈ natToCharsAux fuel n → ∃ d, d < 10 ∧ c = digitChar d := by
  intro fuel
  induction fuel with
  | zero => intro n c h; simp [natToCharsAux] at h
  | succ fuel ih =>
      intro n c h
      cases n with
      | zero => simp [natToCharsAux] at h
      | succ m =>
          rw [natToCharsAux] at h
          rcases List.mem_append.mp h with h1 | h1
          · exact ih _ c h1
          · rcases List.mem_singleton.mp h1 with rfl
            exact ⟨(m + 1) % 10, Nat.mod_lt _ (by norm_num), rfl⟩

theorem mem_natToChars_digit {n : ℕ} {c : Char} (h : c ∈ natToChars n) :
    ∃ d, d < 10 ∧ c = digitChar d := by
  unfold natToChars at h
  split at h
  · rcases List.mem_singleton.mp h with rfl
    exact ⟨0, by norm_num, rfl⟩
  · exact mem_natToCharsAux_digit n n c h

theorem mem_padZero {w : ℕ} {cs : List Char} {c : Char} (h : c ∈ padZero w cs) :
    c = '0' ∨ c ∈ cs := by
  unfold padZero at h
  rcases List.mem_append.mp h with h1 | h1
  · exact Or.inl (List.eq_of_mem_replicate h1)
  · exact Or.inr h1

theorem mem_padZero_natToChars {w n : ℕ} {c : Char} (h : c ∈ padZero w (natToChars n)) :
    ∃ d, d < 10 ∧ c = digitChar d := by
  rcases mem_padZero h with h1 | h1
  · exact ⟨0, by norm_num, h1⟩
  · exact mem_natToChars_digit h1

/-- Modelled from the spec: one stored expense row for export, with a valid
typed date, a non-negative decimal amount held as a count of cents (two
fractional digits), and free category/description text. -/
structure StoreRecord where
  date : Date
  amountCents : ℕ
  category : List Char
  description : List Char
deriving DecidableEq, Repr

/-- The `YYYY-MM-DD` text of a date, as the exported table shows it. -/
def dateToChars (d : Date) : List Char :=
  padZero 4 (natToChars d.year) ++
    '-' :: (padZero 2 (natToChars d.month) ++ '-' :: padZero 2 (natToChars d.day))

/-- The decimal text of an amount of `z` cents, with two fractional digits. -/
def amountToChars (z : ℕ) : List Char :=
  natToChars (z / 100) ++ '.' :: padZero 2 (natToChars (z % 100))

/-- Parse a `YYYY-MM-DD` field back into a date. -/
def parseDateChars (cs : List Char) : Option Date :=
  match splitOnChar '-' cs with
  | [ys, ms, ds] =>
      match charsToNat ys, charsToNat ms, charsToNat ds with
      | some y, some m, some d => some ⟨y, m, d⟩
      | _, _, _ => none
  | _ => none

/-- Parse a two-fractional-digit decimal amount field back into cents. -/
def parseAmountChars (cs : List Char) : Option ℕ :=
  match splitOnChar '.' cs with
  | [whole, frac] =>
      if frac.length = 2 then
        match charsToNat whole, charsToNat frac with
        | some w, some f => some (w * 100 + f)
        | _, _ => none
      else none
  | _ => none

/-- The header row `to_csv` writes and the importer requires. -/
def headerChars : List Char := "date,amount,category,description".data

/-- One exported data row: the four fields joined by commas. -/
def recordToLine (r : StoreRecord) : List Char :=
  dateToChars r.date ++
    ',' :: (amountToChars r.amountCents ++ ',' :: (r.category ++ ',' :: r.description))

/-- Modelled from the spec: export of the store to the tabular text, one line
per list element — the header row followed by one data row per record, in
store order. -/
def exportCSV (store : List StoreRecord) : List (List Char) :=
  headerChars :: store.map recordToLine

/-- Parse one data row: split at commas into exactly four fields and parse
the date and amount fields. -/
def parseLine (line : List Char) : Option StoreRecord :=
  match splitOnChar ',' line with
  | [ds, amt, cs, desc] =>
      match parseDateChars ds, parseAmountChars amt with
      | some d, some z => some ⟨d, z, cs, desc⟩
      | _, _ => none
  | _ => none

/-- Parse every row, failing if any row fails. -/
def mapO (f : α → Option β) : List α → Option (List β)
  | [] => some []
  | a :: l =>
      match f a with
      | none => none
      | some b =>
          match mapO f l with
          | none => none
          | some bs => some (b :: bs)

/-- Modelled from the spec: import of the tabular text — a required header
row followed by data rows, each becoming one candidate record. -/
def importCSV (lines : List (List Char)) : Option (List StoreRecord) :=
  match lines with
  | [] => none
  | h :: rows => if h = headerChars then mapO parseLine rows else none

/-- Validity of one stored row per the spec's data model, together with what
the unquoted comma-separated representation needs: a valid calendar date, a
non-empty category, and comma/newline-free category and description text. -/
abbrev validRow (r : StoreRecord) : Prop :=
  1 ≤ r.date.month ∧ r.date.month ≤ 12 ∧ 1 ≤ r.date.day ∧ r.date.day ≤ 31 ∧
    r.category ≠ [] ∧ ',' ∉ r.category ∧ '\n' ∉ r.category ∧
    ',' ∉ r.description ∧ '\n' ∉ r.description

theorem comma_not_mem_dateToChars (d : Date) : ',' ∉ dateToChars d := by
  intro h
  unfold dateToChars at h
  simp only [List.mem_append, List.mem_cons] at h
  rcases h with h1 | h1 | h1 | h1 | h1
  · rcases mem_padZero_natToChars h1 with ⟨k, _, hk⟩
    exact (digitChar_ne_sep k).1 hk.symm
  · exact absurd h1 (by decide)
  · rcases mem_padZero_natToChars h1 with ⟨k, _, hk⟩
    exact (digitChar_ne_sep k).1 hk.symm
  · exact absurd h1 (by decide)
  · rcases mem_padZero_natToChars h1 with ⟨k, _, hk⟩
    exact (digitChar_ne_sep k).1 hk.symm

theorem comma_not_mem_amountToChars (z : ℕ) : ',' ∉ amountToChars z := by
  intro h
  unfold amountToChars at h
  simp only [List.mem_append, List.mem_cons] at h
  rcases h with h1 | h1 | h1
  · rcases mem_natToChars_digit h1 with ⟨k, _, hk⟩
    exact (digitChar_ne_sep k).1 hk.symm
  · exact absurd h1 (by decide)
  · rcases mem_padZero_natToChars h1 with ⟨k, _, hk⟩
    exact (digitChar_ne_sep k).1 hk.symm

theorem hyphen_not_mem_pad {w n : ℕ} : '-' ∉ padZero w (natToChars n) := by
  intro h
  rcases mem_padZero_natToChars h with ⟨k, _, hk⟩
  exact (digitChar_ne_sep k).2.1 hk.symm

theorem dot_not_mem_natToChars {n : ℕ} : '.' ∉ natToChars n := by
  intro h
  rcases mem_natToChars_digit h with ⟨k, _, hk⟩
  exact (digitChar_ne_sep k).2.2.1 hk.symm

theorem dot_not_mem_pad {w n : ℕ} : '.' ∉ padZero w (natToChars n) := by
  intro h
  rcases mem_padZero_natToChars h with ⟨k, _, hk⟩
  exact (digitChar_ne_sep k).2.2.1 hk.symm

theorem parseDateChars_dateToChars (d : Date) : parseDateChars (dateToChars d) = some d := by
  unfold parseDateChars dateToChars
  rw [splitOnChar_append hyphen_not_mem_pad, splitOnChar_append hyphen_not_mem_pad,
    splitOnChar_of_not_mem hyphen_not_mem_pad]
  simp only [charsToNat_padZero_natToChars]

theorem parseAmountChars_amountToChars (z : ℕ) :
    parseAmountChars (amountToChars z) = some z := by
  unfold parseAmountChars amountToChars
  rw [splitOnChar_append dot_not_mem_natToChars, splitOnChar_of_not_mem dot_not_mem_pad]
  have hlen : (padZero 2 (natToChars (z % 100))).length = 2 := by
    refine padZero_length (natToChars_length_le ?_ (by norm_num))
    have := Nat.mod_lt z (show 0 < 100 by norm_num)
    norm_num
    omega
  simp only [hlen, if_true, charsToNat_natToChars, charsToNat_padZero_natToChars]
  congr 1
  have := Nat.div_add_mod z 100
  omega

theorem parseLine_recordToLine (r : StoreRecord) (h : validRow r) :
    parseLine (recordToLine r) = some r := by
  obtain ⟨_, _, _, _, _, hcat, _, hdesc, _⟩ := h
  unfold parseLine recordToLine
  rw [splitOnChar_append (comma_not_mem_dateToChars r.date),
    splitOnChar_append (comma_not_mem_amountToChars r.amountCents),
    splitOnChar_append hcat, splitOnChar_of_not_mem hdesc]
  simp only [parseDateChars_dateToChars, parseAmountChars_amountToChars]

theorem mapO_map_some {α β : Type} {f : α → Option β} {g : β → α} :
    ∀ {l : List β}, (∀ b ∈ l, f (g b) = some b) → mapO f (l.map g) = some l := by
  intro l
  induction l with
  | nil => intro _; rfl
  | cons b l ih =>
      intro h
      have hb := h b (by simp)
      have hl := ih fun x hx => h x (by simp [hx])
      simp [mapO, hb, hl]

/-- C7: exporting a store whose records are all valid rows to the tabular
text and importing that text reproduces the record set exactly — the same
list of `(date, amount, category, description)` tuples in the same order,
hence in particular the same multiset.  (Modelled from the spec; see the
section comment above `splitOnChar`.) -/
theorem export_import_roundtrip (store : List StoreRecord)
    (h : ∀ r ∈ store, validRow r) :
    importCSV (exportCSV store) = some store := by
  show (if headerChars = headerChars then mapO parseLine (store.map recordToLine)
    else none) = some store
  rw [if_pos rfl]
  exact mapO_map_some fun r hr => parseLine_recordToLine r (h r hr)

/-- A concrete store of two valid rows. -/
def storeW : List StoreRecord :=
  [⟨⟨2024, 1, 5⟩, 10050, ['F', 'o', 'o', 'd'], ['l', 'u', 'n', 'c', 'h']⟩,
   ⟨⟨2024, 2, 1⟩, 20000, ['T', 'r', 'a', 'v', 'e', 'l'], []⟩]

/-- Witness for C7: the round trip on a concrete two-record store. -/
theorem export_import_roundtrip_witness :
    importCSV (exportCSV storeW) = some storeW :=
  export_import_roundtrip storeW (by decide)
